import Mathlib

/-!
Shallow embedding of the constrained random pairing engine of the
`2511-manito` repository (`src/services/shuffleService.js` and the
`makeRandomPairs` entry of `src/services/sheetDataService.js`).

Randomness: every JavaScript call `Math.floor(Math.random() * (i + 1))`
is modelled as `g c % (i + 1)` where `g : Nat → Nat` is an arbitrary
stream of draws and `c` is a counter that advances by one per draw.
Every function that consumes randomness threads the counter explicitly,
in the exact order the source consumes `Math.random()`.

Clock: every call `new Date().toISOString()` is modelled as an opaque
string parameter `now` supplied by the environment.

JavaScript exceptions are modelled with `Except PairError`; the
constructors of `PairError` carry exactly the data interpolated into the
corresponding `Error` message of the source.
-/

set_option maxHeartbeats 1000000

namespace Manito

/-- Participant category tags of the source: the strings
`normal`, `newbie`, `leader` (spec names: ORDINARY, NEWCOMER, LEAD). -/
inductive PType where
  | normal
  | newbie
  | leader
  deriving DecidableEq, Repr

/-- A typed participant record, as built by `makePairs` and
`makeNewbieParticipants` from a raw name list. -/
structure Participant where
  name : String
  type : PType
  deriving DecidableEq, Repr

instance : Inhabited Participant := ⟨⟨"", PType.normal⟩⟩

/-- The default value used to totalize in-bounds list indexing. -/
def dummyParticipant : Participant := ⟨"", PType.normal⟩

/-- A pair object as pushed by `shuffleAndPair` (before id renumbering). -/
structure Pair where
  giver : String
  giverType : PType
  receiver : String
  receiverType : PType
  createdAt : String
  deriving DecidableEq, Repr

/-- A pair object after `makePairs` adds the sequential `id` field. -/
structure FinalPair where
  giver : String
  giverType : PType
  receiver : String
  receiverType : PType
  createdAt : String
  id : Nat
  deriving DecidableEq, Repr

/-- The spread `... pair, id: index + 1` of the source: copy the pair and
attach an id. -/
def Pair.withId (p : Pair) (i : Nat) : FinalPair :=
  ⟨p.giver, p.giverType, p.receiver, p.receiverType, p.createdAt, i⟩

/-- Forget the id again (projection used only in statements). -/
def FinalPair.toPair (p : FinalPair) : Pair :=
  ⟨p.giver, p.giverType, p.receiver, p.receiverType, p.createdAt⟩

/-- The id-and-edge content of a final pair: everything the source
stores except the `createdAt` timestamp. -/
def FinalPair.core (p : FinalPair) : Nat × String × PType × String × PType :=
  (p.id, p.giver, p.giverType, p.receiver, p.receiverType)

/-- The two metadata object shapes returned by `makePairs`: the
error-only object of the empty-population short circuit, and the full
metadata object of the success path. -/
inductive Metadata where
  | errorMeta (error : String)
  | full (totalParticipants usedParticipants excludedParticipants : Nat)
      (excluded : List String) (forbiddenPairs : Nat) (generatedAt : String)
      (rules : List String)
  deriving DecidableEq, Repr

/-- Read the `forbiddenPairs` count out of a metadata object, when the
object has that field. -/
def Metadata.forbiddenCount : Metadata → Option Nat
  | Metadata.errorMeta _ => none
  | Metadata.full _ _ _ _ fp _ _ => some fp

/-- The thrown `Error` values of the source, with the data that the
source interpolates into each message. -/
inductive PairError where
  | onlyOneParticipant
  | groupSingle (n : Nat)
  | groupUnsolvable (n : Nat)
  | reciprocalPair (giver receiver : String)
  | typeError
  deriving DecidableEq, Repr

/-- The value returned by `makePairs` on the non-throwing paths. -/
structure PairingResult where
  pairs : List FinalPair
  metadata : Metadata
  deriving DecidableEq, Repr

/-- The template-literal key `a + "-" + b` used for the forbidden set
and for `validResult`. -/
def pairKey (a b : String) : String := a ++ "-" ++ b

/-- The `forbiddenPairs` Set built at the top of `makePairs`: for each
supplied pair with both components truthy (non-empty), both direction
keys are inserted.  The JS `Set` is modelled as a list of keys queried
only through membership. -/
def buildForbidden : List (String × String) → List String
  | [] => []
  | ab :: rest =>
    if ab.1 ≠ "" ∧ ab.2 ≠ "" then
      pairKey ab.1 ab.2 :: pairKey ab.2 ab.1 :: buildForbidden rest
    else buildForbidden rest

/-- `isValidPair` of the source, clause for clause. -/
def isValidPair (giver receiver : Participant) (forbiddenPairs : List String) : Bool :=
  if giver.name = receiver.name then false
  else if forbiddenPairs.contains (pairKey giver.name receiver.name) then false
  else if giver.type = PType.newbie ∧ receiver.type = PType.normal then false
  else if receiver.type = PType.newbie ∧ giver.type = PType.normal then false
  else if giver.type = PType.newbie ∧ receiver.type = PType.newbie then false
  else true

/-- The destructuring swap `[a[i], a[j]] = [a[j], a[i]]`, totalized: out
of bounds (never reached by the source loops) it is the identity. -/
def listSwap {α : Type} (l : List α) (i j : Nat) : List α :=
  match l[i]?, l[j]? with
  | some a, some b => (l.set i b).set j a
  | _, _ => l

/-- The Fisher–Yates loop body: the loop variable `i` runs downward; at
each step `j = g c % (i + 1)` is drawn and positions `i`, `j` swapped. -/
def fyLoop {α : Type} (g : Nat → Nat) : Nat → List α → Nat → List α × Nat
  | 0, arr, c => (arr, c)
  | i + 1, arr, c => fyLoop g i (listSwap arr (i + 1) (g c % (i + 2))) (c + 1)

/-- The full Fisher–Yates shuffle `for (i = length - 1; i > 0; i--)`,
as used both by `shuffleAndPair` and by `makeNewbieParticipants`. -/
def fisherYates {α : Type} (g : Nat → Nat) (l : List α) (c : Nat) : List α × Nat :=
  fyLoop g (l.length - 1) l c

/-- The pair object pushed by the cycle loop at index `i`:
giver `shuffled[i]`, receiver `shuffled[(i + 1) % length]`. -/
def pairAt (shuffled : List Participant) (now : String) (i : Nat) : Pair :=
  let giver := shuffled.getD i dummyParticipant
  let receiver := shuffled.getD ((i + 1) % shuffled.length) dummyParticipant
  ⟨giver.name, giver.type, receiver.name, receiver.type, now⟩

/-- Whether every adjacent pair of the circular arrangement passes
`isValidPair`; the source sets `success = false` and breaks on the
first index that fails. -/
def cycleValid (shuffled : List Participant) (forbiddenPairs : List String) : Bool :=
  (List.range shuffled.length).all fun i =>
    isValidPair (shuffled.getD i dummyParticipant)
      (shuffled.getD ((i + 1) % shuffled.length) dummyParticipant) forbiddenPairs

/-- One attempt of the inner cycle loop of `shuffleAndPair`: on the
first invalid adjacent pair the attempt is abandoned (its partial pair
list is discarded), otherwise the full list of cycle pairs results. -/
def attemptPairs (shuffled : List Participant) (forbiddenPairs : List String)
    (now : String) : Option (List Pair) :=
  if cycleValid shuffled forbiddenPairs then
    some ((List.range shuffled.length).map (pairAt shuffled now))
  else none

/-- The attempt loop of `shuffleAndPair` with explicit remaining fuel;
when the fuel runs out the source throws the error naming the group
size. -/
def shuffleTries (participants : List Participant) (forbiddenPairs : List String)
    (now : String) (g : Nat → Nat) : Nat → Nat → Except PairError (List Pair × Nat)
  | 0, _ => Except.error (PairError.groupUnsolvable participants.length)
  | fuel + 1, c =>
    let sc := fisherYates g participants c
    match attemptPairs sc.1 forbiddenPairs now with
    | some pairs => Except.ok (pairs, sc.2)
    | none => shuffleTries participants forbiddenPairs now g fuel sc.2

/-- `shuffleAndPair` of the source: empty group returns immediately, a
singleton group throws, otherwise up to `maxAttempts = 100` shuffle
attempts are made. -/
def shuffleAndPair (participants : List Participant) (forbiddenPairs : List String)
    (now : String) (g : Nat → Nat) (c : Nat) : Except PairError (List Pair × Nat) :=
  if participants.length = 0 then Except.ok ([], c)
  else if participants.length = 1 then
    Except.error (PairError.groupSingle participants.length)
  else shuffleTries participants forbiddenPairs now g 100 c

/-- The record returned by `makeNewbieParticipants` on its two normal
paths. -/
structure NewbieParts where
  newbieAndLeaders : List Participant
  remainLeaders : List String
  deriving DecidableEq, Repr

/-- `makeNewbieParticipants` of the source.  When `newbies` is empty the
source returns the bare array `[]`, an object that has neither a
`newbieAndLeaders` nor a `remainLeaders` field; this shape mismatch is
modelled as `none`. -/
def makeNewbieParticipants (newbies leaders : List String) (g : Nat → Nat) (c : Nat) :
    Option NewbieParts × Nat :=
  if newbies.length = 0 then (none, c)
  else if leaders.length ≤ newbies.length then
    (some ⟨newbies.map (fun n => ⟨n, PType.newbie⟩) ++
        leaders.map (fun n => ⟨n, PType.leader⟩), []⟩, c)
  else
    let sc := fisherYates g leaders c
    (some ⟨newbies.map (fun n => ⟨n, PType.newbie⟩) ++
        (sc.1.take newbies.length).map (fun n => ⟨n, PType.leader⟩),
      sc.1.drop newbies.length⟩, sc.2)

/-- The id renumbering `pairs.map((pair, index) => (... pair, id: index + 1))`,
started at `k = 1`. -/
def renumberFrom : Nat → List Pair → List FinalPair
  | _, [] => []
  | k, p :: rest => p.withId k :: renumberFrom (k + 1) rest

/-- The loop of `validResult`.  The source creates `pairSet`, computes a
`forwardKey` for every pair but never inserts it into `pairSet`, so the
set parameter is never extended during the pass. -/
def validResultLoop (pairSet : List String) : List FinalPair → Except PairError Unit
  | [] => Except.ok ()
  | p :: rest =>
    if pairSet.contains (pairKey p.receiver p.giver) then
      Except.error (PairError.reciprocalPair p.giver p.receiver)
    else validResultLoop pairSet rest

/-- `validResult` of the source: the pass starts from the freshly
created (empty) `pairSet`. -/
def validResult (finalPairs : List FinalPair) : Except PairError Unit :=
  validResultLoop [] finalPairs

/-- The fixed `rules` string list of the success metadata. -/
def rulesList : List String :=
  ["newbie는 newbie 또는 leader와만 짝 가능",
   "leader끼리는 짝 불가",
   "normal은 누구와도 짝 가능",
   "filterPairs에 포함된 쌍은 금지"]

/-- The guarded per-group matching block of `makePairs` (the source
repeats it once per group): a non-empty group is matched with
`shuffleAndPair`, an empty group contributes no pairs and is skipped. -/
def runGroup (group : List Participant) (forbiddenPairs : List String)
    (now : String) (g : Nat → Nat) (c : Nat) : Except PairError (List Pair × Nat) :=
  if group.length > 0 then shuffleAndPair group forbiddenPairs now g c
  else Except.ok ([], c)

/-- The tail of `makePairs` after the partition: match Group A, then
Group B, renumber the concatenation, run the validator, and assemble
the full metadata object. -/
def makePairsTail (groupA groupB : List Participant) (forbiddenPairs : List String)
    (g : Nat → Nat) (c0 : Nat) (now : String) (totalCount fpLen : Nat) :
    Except PairError PairingResult :=
  match runGroup groupA forbiddenPairs now g c0 with
  | Except.error e => Except.error e
  | Except.ok pa =>
    match runGroup groupB forbiddenPairs now g pa.2 with
    | Except.error e => Except.error e
    | Except.ok pb =>
      let finalPairs := renumberFrom 1 (pa.1 ++ pb.1)
      match validResult finalPairs with
      | Except.error e => Except.error e
      | Except.ok _ =>
        Except.ok ⟨finalPairs,
          Metadata.full totalCount totalCount 0 [] fpLen now rulesList⟩

/-- `makePairs` of `shuffleService.js`, with randomness stream `g`,
draw counter `c` and clock value `now`. -/
def makePairs (normals newbies leaders : List String)
    (filterPairs : List (String × String)) (g : Nat → Nat) (c : Nat) (now : String) :
    Except PairError PairingResult :=
  let totalCount := normals.length + newbies.length + leaders.length
  if totalCount = 0 then
    Except.ok ⟨[], Metadata.errorMeta "참가자가 없습니다."⟩
  else if totalCount = 1 then
    Except.error PairError.onlyOneParticipant
  else
    let forbiddenPairs := buildForbidden filterPairs
    let npd := makeNewbieParticipants newbies leaders g c
    match npd.1 with
    | none => Except.error PairError.typeError
    | some data =>
      makePairsTail data.newbieAndLeaders
        (normals.map (fun n => ⟨n, PType.normal⟩) ++
          data.remainLeaders.map (fun n => ⟨n, PType.leader⟩))
        forbiddenPairs g npd.2 now totalCount filterPairs.length

/-- The structured-data object handed to
`SheetDataService.makeRandomPairs` (only the fields that method reads). -/
structure SheetData where
  normals : List String
  newbies : List String
  leaders : List String
  filterPairs : List (String × String)
  deriving DecidableEq, Repr

/-- `SheetDataService.makeRandomPairs`: the source calls
`makePairs(data.normals, data.newbies, data.leaders)` with only three
arguments, so the default `filterPairs = []` of `makePairs` applies. -/
def makeRandomPairs (data : SheetData) (g : Nat → Nat) (c : Nat) (now : String) :
    Except PairError PairingResult :=
  makePairs data.normals data.newbies data.leaders [] g c now

/-- The directed edge content of a pair: everything except the
`createdAt` timestamp and the id. -/
def Pair.edge (p : Pair) : String × PType × String × PType :=
  (p.giver, p.giverType, p.receiver, p.receiverType)

/-- Derived notion for statements: the draw counter at the start of the
`k`-th shuffle attempt of `shuffleAndPair` (attempts numbered from 0). -/
def attemptCounter (g : Nat → Nat) (group : List Participant) (c : Nat) : Nat → Nat
  | 0 => c
  | k + 1 => (fisherYates g group (attemptCounter g group c k)).2

/-- Derived notion for statements: the shuffled arrangement produced by
the `k`-th attempt of `shuffleAndPair`. -/
def attemptShuffled (g : Nat → Nat) (group : List Participant) (c : Nat) (k : Nat) :
    List Participant :=
  (fisherYates g group (attemptCounter g group c k)).1

/-- The result of `makePairs [] ["N"] ["L"] []` under the constant-zero
draw stream at clock value `t`. -/
def sampleOk : PairingResult :=
  ⟨[⟨"L", PType.leader, "N", PType.newbie, "t", 1⟩,
    ⟨"N", PType.newbie, "L", PType.leader, "t", 2⟩],
   Metadata.full 2 2 0 [] 0 "t" rulesList⟩

/-- The same run with one supplied forbidden pair of absent names. -/
def sampleOk1 : PairingResult :=
  ⟨[⟨"L", PType.leader, "N", PType.newbie, "t", 1⟩,
    ⟨"N", PType.newbie, "L", PType.leader, "t", 2⟩],
   Metadata.full 2 2 0 [] 1 "t" rulesList⟩

/-- The leaders chosen into Group A by
`makeNewbieParticipants ["N"] ["A", "B", "C"]` when the two draws of its
Fisher–Yates shuffle are `j1` and `j2`. -/
def selectedLeadersAt (j1 j2 : Nat) : List String :=
  match (makeNewbieParticipants ["N"] ["A", "B", "C"]
      (fun k => if k = 0 then j1 else j2) 0).1 with
  | some data => (data.newbieAndLeaders.map Participant.name).drop 1
  | none => []

/-- The Group A leader selections over the six equiprobable residue
combinations of the two draws (moduli 3 and 2). -/
def selectionTable : List String :=
  (List.range 3).flatMap fun j1 =>
    (List.range 2).flatMap fun j2 => selectedLeadersAt j1 j2

/-! ### Permutation facts about the shuffle -/

lemma count_set {α : Type} [DecidableEq α] (l : List α) (i : Nat) (a x b : α)
    (h : l[i]? = some b) :
    (l.set i a).count x + (if b = x then 1 else 0) =
      l.count x + (if a = x then 1 else 0) := by
  induction l generalizing i with
  | nil => simp at h
  | cons hd t ih =>
    cases i with
    | zero =>
      simp only [List.getElem?_cons_zero, Option.some.injEq] at h
      subst h
      simp only [List.set_cons_zero, List.count_cons]
      by_cases hb : hd = x <;> by_cases ha : a = x <;> simp [hb, ha]
    | succ j =>
      simp only [List.getElem?_cons_succ] at h
      have := ih j h
      simp only [List.set_cons_succ, List.count_cons]
      by_cases hh : hd = x <;> simp [hh] <;> omega

lemma listSwap_perm {α : Type} [DecidableEq α] (l : List α) (i j : Nat) :
    List.Perm (listSwap l i j) l := by
  unfold listSwap
  cases hi : l[i]? with
  | none => simp
  | some a =>
    cases hj : l[j]? with
    | none => simp
    | some b =>
      simp only []
      rw [List.perm_iff_count]
      intro x
      have h1 := count_set l i b x a hi
      have h2 : (l.set i b)[j]? = some b := by
        by_cases hij : i = j
        · subst hij
          have : i < l.length := by
            by_contra hlt
            rw [List.getElem?_eq_none (Nat.le_of_not_lt hlt)] at hi
            exact Option.noConfusion hi
          simp [List.getElem?_set_self (by simpa using this)]
        · rw [List.getElem?_set_ne (by omega)]
          exact hj
      have h3 := count_set (l.set i b) j a x b h2
      by_cases hax : a = x <;> by_cases hbx : b = x <;>
        simp [hax, hbx] at h1 h3 ⊢ <;> omega

lemma fyLoop_perm {α : Type} [DecidableEq α] (g : Nat → Nat) (i : Nat)
    (l : List α) (c : Nat) : List.Perm (fyLoop g i l c).1 l := by
  induction i generalizing l c with
  | zero => simp [fyLoop]
  | succ i ih =>
    simp only [fyLoop]
    exact (ih _ _).trans (listSwap_perm _ _ _)

lemma fisherYates_perm {α : Type} [DecidableEq α] (g : Nat → Nat) (l : List α)
    (c : Nat) : List.Perm (fisherYates g l c).1 l :=
  fyLoop_perm g _ l c

lemma fisherYates_length {α : Type} [DecidableEq α] (g : Nat → Nat) (l : List α)
    (c : Nat) : (fisherYates g l c).1.length = l.length :=
  (fisherYates_perm g l c).length_eq

/-! ### The circular arrangement of one attempt -/

lemma range_map_getD {α β : Type} (l : List α) (d : α) (f : α → β) :
    (List.range l.length).map (fun i => f (l.getD i d)) = l.map f := by
  induction l with
  | nil => simp
  | cons a t ih =>
    simp only [List.length_cons, List.range_succ_eq_map, List.map_cons,
      List.getD_cons_zero, List.map_map]
    refine congrArg (f a :: ·) ?_
    calc (List.range t.length).map ((fun i => f ((a :: t).getD i d)) ∘ Nat.succ)
        = (List.range t.length).map (fun i => f (t.getD i d)) := by
          refine List.map_congr_left fun i _ => ?_
          simp [Function.comp]
      _ = t.map f := ih

lemma range_map_getD_succ {α β : Type} (a : α) (t : List α) (d : α) (f : α → β) :
    (List.range (a :: t).length).map
        (fun i => f ((a :: t).getD ((i + 1) % (a :: t).length) d)) =
      t.map f ++ [f a] := by
  simp only [List.length_cons]
  rw [List.range_succ, List.map_append]
  refine congrArg₂ (· ++ ·) ?_ ?_
  · calc (List.range t.length).map
          (fun i => f ((a :: t).getD ((i + 1) % (t.length + 1)) d))
        = (List.range t.length).map (fun i => f (t.getD i d)) := by
          refine List.map_congr_left fun i hi => ?_
          have hi' : i < t.length := List.mem_range.mp hi
          rw [Nat.mod_eq_of_lt (by omega)]
          simp
      _ = t.map f := range_map_getD t d f
  · simp [Nat.mod_self]

lemma attempt_givers (shuffled : List Participant) (now : String) :
    ((List.range shuffled.length).map (pairAt shuffled now)).map Pair.giver =
      shuffled.map Participant.name := by
  rw [List.map_map]
  exact range_map_getD shuffled dummyParticipant Participant.name

lemma attempt_receivers (shuffled : List Participant) (now : String) :
    List.Perm
      (((List.range shuffled.length).map (pairAt shuffled now)).map Pair.receiver)
      (shuffled.map Participant.name) := by
  rw [List.map_map]
  cases shuffled with
  | nil => simp
  | cons a t =>
    have h := range_map_getD_succ a t dummyParticipant Participant.name
    have heq : (List.range (a :: t).length).map (Pair.receiver ∘ pairAt (a :: t) now) =
        t.map Participant.name ++ [Participant.name a] := by
      rw [← h]
      refine List.map_congr_left fun i _ => ?_
      simp [Function.comp, pairAt]
    rw [heq, List.map_cons]
    exact List.perm_append_singleton _ _

lemma attempt_mem {shuffled : List Participant} {fp : List String} {now : String}
    {p : Pair} (hcv : cycleValid shuffled fp = true)
    (hp : p ∈ (List.range shuffled.length).map (pairAt shuffled now)) :
    ∃ gv rv : Participant, isValidPair gv rv fp = true ∧
      p.giver = gv.name ∧ p.giverType = gv.type ∧
      p.receiver = rv.name ∧ p.receiverType = rv.type := by
  rcases List.mem_map.mp hp with ⟨i, hi, rfl⟩
  have hv := (List.all_eq_true.mp hcv) i hi
  refine ⟨shuffled.getD i dummyParticipant,
    shuffled.getD ((i + 1) % shuffled.length) dummyParticipant, ?_, ?_, ?_, ?_, ?_⟩ <;>
    simp_all [pairAt]

lemma attemptPairs_ok {shuffled : List Participant} {fp : List String} {now : String}
    {ps : List Pair} (h : attemptPairs shuffled fp now = some ps) :
    cycleValid shuffled fp = true ∧
      ps = (List.range shuffled.length).map (pairAt shuffled now) := by
  unfold attemptPairs at h
  by_cases hcv : cycleValid shuffled fp = true <;> simp [hcv] at h
  exact ⟨hcv, h.symm⟩

lemma attemptPairs_none {shuffled : List Participant} {fp : List String} {now : String}
    (h : cycleValid shuffled fp = false) : attemptPairs shuffled fp now = none := by
  simp [attemptPairs, h]

lemma attemptPairs_none_elim {shuffled : List Participant} {fp : List String}
    {now : String} (h : attemptPairs shuffled fp now = none) :
    cycleValid shuffled fp = false := by
  unfold attemptPairs at h
  by_cases hcv : cycleValid shuffled fp = true
  · rw [if_pos hcv] at h; exact absurd h (by simp)
  · simpa using hcv

lemma attemptShuffled_zero (g : Nat → Nat) (group : List Participant) (c : Nat) :
    attemptShuffled g group c 0 = (fisherYates g group c).1 := rfl

/-! ### The bounded attempt loop -/

lemma attemptCounter_shift (g : Nat → Nat) (group : List Participant) (c : Nat)
    (k : Nat) :
    attemptCounter g group (fisherYates g group c).2 k = attemptCounter g group c (k + 1) := by
  induction k with
  | zero => rfl
  | succ k ih => simp only [attemptCounter, ih]

lemma attemptShuffled_shift (g : Nat → Nat) (group : List Participant) (c : Nat)
    (k : Nat) :
    attemptShuffled g group (fisherYates g group c).2 k = attemptShuffled g group c (k + 1) := by
  unfold attemptShuffled
  rw [attemptCounter_shift]

lemma shuffleTries_ok_elim {group : List Participant} {fp : List String} {now : String}
    {g : Nat → Nat} (fuel : Nat) :
    ∀ c ps c2, shuffleTries group fp now g fuel c = Except.ok (ps, c2) →
      ∃ k, k < fuel ∧ cycleValid (attemptShuffled g group c k) fp = true ∧
        (∀ m, m < k → cycleValid (attemptShuffled g group c m) fp = false) ∧
        ps = (List.range (attemptShuffled g group c k).length).map
          (pairAt (attemptShuffled g group c k) now) ∧
        c2 = attemptCounter g group c (k + 1) := by
  induction fuel with
  | zero => intro c ps c2 h; simp [shuffleTries] at h
  | succ fuel ih =>
    intro c ps c2 h
    simp only [shuffleTries] at h
    cases hat : attemptPairs (fisherYates g group c).1 fp now with
    | some ps0 =>
      rw [hat] at h
      simp only [Except.ok.injEq, Prod.mk.injEq] at h
      obtain ⟨hps, hc2⟩ := h
      rcases attemptPairs_ok hat with ⟨hcv, hshape⟩
      exact ⟨0, by omega, hcv, fun m hm => absurd hm (by omega),
        by rw [← hps, hshape]; rfl, by rw [← hc2]; rfl⟩
    | none =>
      rw [hat] at h
      rcases ih _ _ _ h with ⟨k, hk, hcv, hfirst, hps, hc2⟩
      rw [attemptShuffled_shift] at hcv hps
      rw [attemptCounter_shift] at hc2
      refine ⟨k + 1, by omega, hcv, ?_, hps, hc2⟩
      intro m hm
      cases m with
      | zero =>
        rw [attemptShuffled_zero]
        exact attemptPairs_none_elim hat
      | succ m =>
        rw [← attemptShuffled_shift]
        exact hfirst m (by omega)

lemma shuffleTries_error_elim {group : List Participant} {fp : List String}
    {now : String} {g : Nat → Nat} (fuel : Nat) :
    ∀ c e, shuffleTries group fp now g fuel c = Except.error e →
      e = PairError.groupUnsolvable group.length ∧
        ∀ k, k < fuel → cycleValid (attemptShuffled g group c k) fp = false := by
  induction fuel with
  | zero =>
    intro c e h
    simp only [shuffleTries, Except.error.injEq] at h
    exact ⟨h.symm, fun k hk => absurd hk (by omega)⟩
  | succ fuel ih =>
    intro c e h
    simp only [shuffleTries] at h
    cases hat : attemptPairs (fisherYates g group c).1 fp now with
    | some ps0 => rw [hat] at h; exact absurd h (by simp)
    | none =>
      rw [hat] at h
      rcases ih _ _ h with ⟨he, hall⟩
      refine ⟨he, fun k hk => ?_⟩
      cases k with
      | zero =>
        rw [attemptShuffled_zero]
        exact attemptPairs_none_elim hat
      | succ k =>
        rw [← attemptShuffled_shift]
        exact hall k (by omega)

lemma shuffleTries_error_intro {group : List Participant} {fp : List String}
    {now : String} {g : Nat → Nat} (fuel : Nat) :
    ∀ c, (∀ k, k < fuel → cycleValid (attemptShuffled g group c k) fp = false) →
      shuffleTries group fp now g fuel c =
        Except.error (PairError.groupUnsolvable group.length) := by
  induction fuel with
  | zero => intro c _; rfl
  | succ fuel ih =>
    intro c hall
    have h0 : cycleValid (fisherYates g group c).1 fp = false := by
      have := hall 0 (by omega)
      simpa [attemptShuffled, attemptCounter] using this
    simp only [shuffleTries, attemptPairs_none h0]
    refine ih _ fun k hk => ?_
    rw [attemptShuffled_shift]
    exact hall (k + 1) (by omega)

lemma shuffleAndPair_ok_elim {group : List Participant} {fp : List String}
    {now : String} {g : Nat → Nat} {c : Nat} {ps : List Pair} {c2 : Nat}
    (h : shuffleAndPair group fp now g c = Except.ok (ps, c2)) :
    (group = [] ∧ ps = [] ∧ c2 = c) ∨
      ∃ shuffled, List.Perm shuffled group ∧ cycleValid shuffled fp = true ∧
        ps = (List.range shuffled.length).map (pairAt shuffled now) := by
  unfold shuffleAndPair at h
  by_cases h0 : group.length = 0
  · left
    rw [if_pos h0] at h
    simp only [Except.ok.injEq, Prod.mk.injEq] at h
    exact ⟨List.length_eq_zero.mp h0, h.1.symm, h.2.symm⟩
  · right
    rw [if_neg h0] at h
    by_cases h1 : group.length = 1
    · rw [if_pos h1] at h; exact absurd h (by simp)
    · rw [if_neg h1] at h
      rcases shuffleTries_ok_elim 100 c ps c2 h with ⟨k, _, hcv, _, hps, _⟩
      exact ⟨attemptShuffled g group c k,
        fisherYates_perm g group (attemptCounter g group c k), hcv, hps⟩

lemma shuffleAndPair_names {group : List Participant} {fp : List String}
    {now : String} {g : Nat → Nat} {c : Nat} {ps : List Pair} {c2 : Nat}
    (h : shuffleAndPair group fp now g c = Except.ok (ps, c2)) :
    List.Perm (ps.map Pair.giver) (group.map Participant.name) ∧
      List.Perm (ps.map Pair.receiver) (group.map Participant.name) := by
  rcases shuffleAndPair_ok_elim h with ⟨rfl, rfl, _⟩ | ⟨shuffled, hperm, _, rfl⟩
  · simp
  · constructor
    · rw [attempt_givers]
      exact hperm.map Participant.name
    · exact (attempt_receivers shuffled now).trans (hperm.map Participant.name)

lemma shuffleAndPair_mem {group : List Participant} {fp : List String}
    {now : String} {g : Nat → Nat} {c : Nat} {ps : List Pair} {c2 : Nat} {p : Pair}
    (h : shuffleAndPair group fp now g c = Except.ok (ps, c2)) (hp : p ∈ ps) :
    ∃ gv rv : Participant, isValidPair gv rv fp = true ∧
      p.giver = gv.name ∧ p.giverType = gv.type ∧
      p.receiver = rv.name ∧ p.receiverType = rv.type := by
  rcases shuffleAndPair_ok_elim h with ⟨rfl, rfl, _⟩ | ⟨shuffled, _, hcv, rfl⟩
  · simp at hp
  · exact attempt_mem hcv hp

lemma shuffleAndPair_nil {fp : List String} {now : String} {g : Nat → Nat} {c : Nat} :
    shuffleAndPair [] fp now g c = Except.ok ([], c) := rfl

/-! ### Renumbering, the validator and the orchestrator -/

lemma renumberFrom_giver (k : Nat) (ps : List Pair) :
    (renumberFrom k ps).map (fun q => q.giver) = ps.map Pair.giver := by
  induction ps generalizing k with
  | nil => rfl
  | cons p rest ih => simp [renumberFrom, Pair.withId, ih]

lemma renumberFrom_receiver (k : Nat) (ps : List Pair) :
    (renumberFrom k ps).map (fun q => q.receiver) = ps.map Pair.receiver := by
  induction ps generalizing k with
  | nil => rfl
  | cons p rest ih => simp [renumberFrom, Pair.withId, ih]

lemma renumberFrom_mem {k : Nat} {ps : List Pair} {q : FinalPair}
    (h : q ∈ renumberFrom k ps) : ∃ p ∈ ps, ∃ i, q = p.withId i := by
  induction ps generalizing k with
  | nil => simp [renumberFrom] at h
  | cons p rest ih =>
    simp only [renumberFrom, List.mem_cons] at h
    rcases h with rfl | h
    · exact ⟨p, List.mem_cons_self p rest, k, rfl⟩
    · rcases ih h with ⟨p0, hp0, i, rfl⟩
      exact ⟨p0, List.mem_cons_of_mem p hp0, i, rfl⟩

lemma validResultLoop_ok (l : List FinalPair) :
    validResultLoop [] l = Except.ok () := by
  induction l with
  | nil => rfl
  | cons p rest ih => simpa [validResultLoop] using ih

/-- The validator of the source can never fire: the key set it consults
is never populated during the pass. -/
lemma validResult_ok (l : List FinalPair) : validResult l = Except.ok () :=
  validResultLoop_ok l

lemma map_mk_name (l : List String) (ty : PType) :
    (l.map (fun n => (⟨n, ty⟩ : Participant))).map Participant.name = l := by
  induction l with
  | nil => rfl
  | cons a rest ih => simp only [List.map_cons, ih]

lemma makeNewbieParticipants_some_elim {newbies leaders : List String}
    {g : Nat → Nat} {c : Nat} {data : NewbieParts}
    (h : (makeNewbieParticipants newbies leaders g c).1 = some data) :
    newbies ≠ [] ∧
      List.Perm (data.newbieAndLeaders.map Participant.name ++ data.remainLeaders)
        (newbies ++ leaders) := by
  unfold makeNewbieParticipants at h
  by_cases h0 : newbies.length = 0
  · rw [if_pos h0] at h; exact absurd h (by simp)
  · have hne : newbies ≠ [] := fun hnil => h0 (by simp [hnil])
    rw [if_neg h0] at h
    by_cases hle : leaders.length ≤ newbies.length
    · rw [if_pos hle] at h
      simp only [Option.some.injEq] at h
      subst h
      refine ⟨hne, ?_⟩
      simp only [List.map_append, map_mk_name, List.append_nil]
      exact List.Perm.refl _
    · rw [if_neg hle] at h
      simp only [Option.some.injEq] at h
      subst h
      refine ⟨hne, ?_⟩
      simp only [List.map_append, map_mk_name]
      rw [List.append_assoc, List.take_append_drop]
      exact (List.Perm.refl newbies).append (fisherYates_perm g leaders c)

lemma makeNewbieParticipants_none_iff (newbies leaders : List String)
    (g : Nat → Nat) (c : Nat) :
    (makeNewbieParticipants newbies leaders g c).1 = none ↔ newbies = [] := by
  unfold makeNewbieParticipants
  by_cases h0 : newbies.length = 0
  · simp [if_pos h0, List.length_eq_zero.mp h0]
  · rw [if_neg h0]
    by_cases hle : leaders.length ≤ newbies.length <;>
      simp [hle] <;> intro hnil <;> exact h0 (by simp [hnil])

/-- Skipping an empty group and matching it agree. -/
lemma runGroup_eq (group : List Participant) (fp : List String) (now : String)
    (g : Nat → Nat) (c : Nat) :
    runGroup group fp now g c = shuffleAndPair group fp now g c := by
  unfold runGroup
  by_cases hl : group.length > 0
  · rw [if_pos hl]
  · rw [if_neg hl]
    have : group = [] := List.length_eq_zero.mp (by omega)
    rw [this, shuffleAndPair_nil]

lemma makePairsTail_errA {groupA groupB : List Participant} {fb : List String}
    {g : Nat → Nat} {c0 : Nat} {now : String} {total fplen : Nat} {e : PairError}
    (h : runGroup groupA fb now g c0 = Except.error e) :
    makePairsTail groupA groupB fb g c0 now total fplen = Except.error e := by
  unfold makePairsTail
  rw [h]

lemma makePairsTail_okA {groupA groupB : List Participant} {fb : List String}
    {g : Nat → Nat} {c0 : Nat} {now : String} {total fplen : Nat}
    {pa : List Pair × Nat} (h : runGroup groupA fb now g c0 = Except.ok pa) :
    makePairsTail groupA groupB fb g c0 now total fplen =
      (match runGroup groupB fb now g pa.2 with
       | Except.error e => Except.error e
       | Except.ok pb =>
         match validResult (renumberFrom 1 (pa.1 ++ pb.1)) with
         | Except.error e => Except.error e
         | Except.ok _ =>
           Except.ok ⟨renumberFrom 1 (pa.1 ++ pb.1),
             Metadata.full total total 0 [] fplen now rulesList⟩) := by
  unfold makePairsTail
  rw [h]

lemma makePairsTail_errB {groupA groupB : List Participant} {fb : List String}
    {g : Nat → Nat} {c0 : Nat} {now : String} {total fplen : Nat}
    {pa : List Pair × Nat} {e : PairError}
    (hA : runGroup groupA fb now g c0 = Except.ok pa)
    (hB : runGroup groupB fb now g pa.2 = Except.error e) :
    makePairsTail groupA groupB fb g c0 now total fplen = Except.error e := by
  rw [makePairsTail_okA hA, hB]

lemma makePairsTail_okB {groupA groupB : List Participant} {fb : List String}
    {g : Nat → Nat} {c0 : Nat} {now : String} {total fplen : Nat}
    {pa pb : List Pair × Nat}
    (hA : runGroup groupA fb now g c0 = Except.ok pa)
    (hB : runGroup groupB fb now g pa.2 = Except.ok pb) :
    makePairsTail groupA groupB fb g c0 now total fplen =
      Except.ok ⟨renumberFrom 1 (pa.1 ++ pb.1),
        Metadata.full total total 0 [] fplen now rulesList⟩ := by
  rw [makePairsTail_okA hA, hB]
  show (match validResult (renumberFrom 1 (pa.1 ++ pb.1)) with
      | Except.error e => Except.error e
      | Except.ok _ =>
        Except.ok (⟨renumberFrom 1 (pa.1 ++ pb.1),
          Metadata.full total total 0 [] fplen now rulesList⟩ : PairingResult)) =
    Except.ok ⟨renumberFrom 1 (pa.1 ++ pb.1),
      Metadata.full total total 0 [] fplen now rulesList⟩
  rw [validResult_ok]

/-- The success path of `makePairs` with a non-empty population: the
partition succeeded, both groups were matched, and the result is the
renumbered concatenation with the full metadata object. -/
lemma makePairs_ok_elim {normals newbies leaders : List String}
    {fp : List (String × String)} {g : Nat → Nat} {c : Nat} {now : String}
    {res : PairingResult}
    (h : makePairs normals newbies leaders fp g c now = Except.ok res)
    (hne : normals.length + newbies.length + leaders.length ≠ 0) :
    ∃ data psA cA psB cB,
      (makeNewbieParticipants newbies leaders g c).1 = some data ∧
      shuffleAndPair data.newbieAndLeaders (buildForbidden fp) now g
          (makeNewbieParticipants newbies leaders g c).2 = Except.ok (psA, cA) ∧
      shuffleAndPair (normals.map (fun n => ⟨n, PType.normal⟩) ++
            data.remainLeaders.map (fun n => ⟨n, PType.leader⟩))
          (buildForbidden fp) now g cA = Except.ok (psB, cB) ∧
      res.pairs = renumberFrom 1 (psA ++ psB) ∧
      res.metadata = Metadata.full
        (normals.length + newbies.length + leaders.length)
        (normals.length + newbies.length + leaders.length) 0 []
        fp.length now rulesList := by
  unfold makePairs at h
  rw [if_neg hne] at h
  by_cases h1 : normals.length + newbies.length + leaders.length = 1
  · rw [if_pos h1] at h; exact absurd h (by simp)
  · rw [if_neg h1] at h
    dsimp only at h
    split at h
    · exact absurd h (by simp)
    · rename_i data hnpd
      cases hra : runGroup data.newbieAndLeaders (buildForbidden fp) now g
          (makeNewbieParticipants newbies leaders g c).2 with
      | error e =>
        rw [makePairsTail_errA hra] at h
        exact absurd h (by simp)
      | ok pa =>
        cases hrb : runGroup (normals.map (fun n => ⟨n, PType.normal⟩) ++
            data.remainLeaders.map (fun n => ⟨n, PType.leader⟩))
            (buildForbidden fp) now g pa.2 with
        | error e =>
          rw [makePairsTail_errB hra hrb] at h
          exact absurd h (by simp)
        | ok pb =>
          rw [makePairsTail_okB hra hrb] at h
          simp only [Except.ok.injEq] at h
          rw [runGroup_eq] at hra hrb
          exact ⟨data, pa.1, pa.2, pb.1, pb.2, hnpd, hra, hrb,
            by rw [← h], by rw [← h]⟩

/-- The shape of the metadata on every non-throwing path of `makePairs`. -/
lemma makePairs_ok_metadata {normals newbies leaders : List String}
    {fp : List (String × String)} {g : Nat → Nat} {c : Nat} {now : String}
    {res : PairingResult}
    (h : makePairs normals newbies leaders fp g c now = Except.ok res) :
    res.metadata = Metadata.errorMeta "참가자가 없습니다." ∨
      res.metadata = Metadata.full
        (normals.length + newbies.length + leaders.length)
        (normals.length + newbies.length + leaders.length) 0 []
        fp.length now rulesList := by
  by_cases hne : normals.length + newbies.length + leaders.length = 0
  · left
    unfold makePairs at h
    rw [if_pos hne] at h
    simp only [Except.ok.injEq] at h
    rw [← h]
  · right
    rcases makePairs_ok_elim h hne with ⟨_, _, _, _, _, _, _, _, _, hmeta⟩
    exact hmeta

/-! ### The forbidden-pair set -/

lemma buildForbidden_mem {fps : List (String × String)} {a b : String}
    (hab : (a, b) ∈ fps) (ha : a ≠ "") (hb : b ≠ "") :
    pairKey a b ∈ buildForbidden fps ∧ pairKey b a ∈ buildForbidden fps := by
  induction fps with
  | nil => simp at hab
  | cons p rest ih =>
    rcases List.mem_cons.mp hab with heq | h
    · rw [← heq]
      simp only [buildForbidden, if_pos (And.intro ha hb)]
      exact ⟨List.mem_cons_self _ _, List.mem_cons_of_mem _ (List.mem_cons_self _ _)⟩
    · have hmem := ih h
      by_cases hc : p.1 ≠ "" ∧ p.2 ≠ ""
      · simp only [buildForbidden, if_pos hc]
        exact ⟨List.mem_cons_of_mem _ (List.mem_cons_of_mem _ hmem.1),
          List.mem_cons_of_mem _ (List.mem_cons_of_mem _ hmem.2)⟩
      · simp only [buildForbidden, if_neg hc]
        exact hmem

lemma not_mem_of_contains_false {l : List String} {x : String}
    (h : l.contains x = false) : x ∉ l := by
  intro hmem
  have htrue : l.contains x = true :=
    List.contains_iff_exists_mem_beq.mpr ⟨x, hmem, by simp⟩
  rw [h] at htrue
  exact Bool.noConfusion htrue

lemma isValidPair_not_contains {gv rv : Participant} {fp : List String}
    (h : isValidPair gv rv fp = true) :
    fp.contains (pairKey gv.name rv.name) = false := by
  unfold isValidPair at h
  by_cases h1 : gv.name = rv.name
  · rw [if_pos h1] at h; exact Bool.noConfusion h
  · rw [if_neg h1] at h
    by_cases h2 : fp.contains (pairKey gv.name rv.name) = true
    · rw [if_pos h2] at h; exact Bool.noConfusion h
    · simpa using h2

/-! ### Independence of the pairing structure from the clock -/

lemma attemptPairs_some {s : List Participant} {fp : List String} {now : String}
    (hcv : cycleValid s fp = true) :
    attemptPairs s fp now = some ((List.range s.length).map (pairAt s now)) := by
  simp [attemptPairs, hcv]

lemma attempt_edges (s : List Participant) (now1 now2 : String) :
    ((List.range s.length).map (pairAt s now1)).map Pair.edge =
      ((List.range s.length).map (pairAt s now2)).map Pair.edge := by
  rw [List.map_map, List.map_map]
  exact List.map_congr_left fun i _ => rfl

lemma shuffleTries_edge (group : List Participant) (fp : List String)
    (now1 now2 : String) (g : Nat → Nat) (fuel : Nat) :
    ∀ c, Except.map (fun pc => (pc.1.map Pair.edge, pc.2))
        (shuffleTries group fp now1 g fuel c) =
      Except.map (fun pc => (pc.1.map Pair.edge, pc.2))
        (shuffleTries group fp now2 g fuel c) := by
  induction fuel with
  | zero => intro c; rfl
  | succ fuel ih =>
    intro c
    simp only [shuffleTries]
    by_cases hcv : cycleValid (fisherYates g group c).1 fp = true
    · rw [attemptPairs_some hcv, attemptPairs_some hcv]
      simp only [Except.map]
      rw [attempt_edges (fisherYates g group c).1 now1 now2]
    · have hf : cycleValid (fisherYates g group c).1 fp = false := by simpa using hcv
      rw [attemptPairs_none hf, attemptPairs_none hf]
      exact ih _

lemma shuffleAndPair_edge (group : List Participant) (fp : List String)
    (now1 now2 : String) (g : Nat → Nat) (c : Nat) :
    Except.map (fun pc => (pc.1.map Pair.edge, pc.2))
        (shuffleAndPair group fp now1 g c) =
      Except.map (fun pc => (pc.1.map Pair.edge, pc.2))
        (shuffleAndPair group fp now2 g c) := by
  unfold shuffleAndPair
  by_cases h0 : group.length = 0
  · rw [if_pos h0, if_pos h0]
  · rw [if_neg h0, if_neg h0]
    by_cases h1 : group.length = 1
    · rw [if_pos h1, if_pos h1]
    · rw [if_neg h1, if_neg h1]
      exact shuffleTries_edge group fp now1 now2 g 100 c

lemma exceptMap_ok_elim {α β : Type} {f : α → β} {x y : Except PairError α} {a : α}
    (h : Except.map f x = Except.map f y) (hx : x = Except.ok a) :
    ∃ a2, y = Except.ok a2 ∧ f a = f a2 := by
  subst hx
  cases y with
  | error e => simp [Except.map] at h
  | ok a2 =>
    simp only [Except.map, Except.ok.injEq] at h
    exact ⟨a2, rfl, h⟩

lemma exceptMap_error_elim {α β : Type} {f : α → β} {x y : Except PairError α}
    {e : PairError} (h : Except.map f x = Except.map f y) (hx : x = Except.error e) :
    y = Except.error e := by
  subst hx
  cases y with
  | error e2 => simp only [Except.map, Except.error.injEq] at h; rw [h]
  | ok a2 => simp [Except.map] at h

lemma renumberFrom_core (k : Nat) {ps1 ps2 : List Pair}
    (h : ps1.map Pair.edge = ps2.map Pair.edge) :
    (renumberFrom k ps1).map FinalPair.core = (renumberFrom k ps2).map FinalPair.core := by
  induction ps1 generalizing ps2 k with
  | nil =>
    cases ps2 with
    | nil => rfl
    | cons q r => simp at h
  | cons p rest ih =>
    cases ps2 with
    | nil => simp at h
    | cons q rest2 =>
      simp only [List.map_cons, List.cons.injEq] at h
      obtain ⟨hpq, hrest⟩ := h
      simp only [renumberFrom, List.map_cons]
      refine congrArg₂ (· :: ·) ?_ (ih k.succ hrest)
      show (k, p.edge) = (k, q.edge)
      rw [hpq]

/-! ### Claims -/

/-- C1 (code bug): the result validator of `makePairs` can never raise —
its `pairSet` is never populated, so the reciprocal-pair check compares
against an empty set on every iteration — and consequently `makePairs`
does return successful results containing both an assignment X→Y and
the reciprocal assignment Y→X, as the concrete run
`makePairs [] ["N"] ["L"]` shows: it succeeds with the two mutual
assignments L→N and N→L. -/
theorem C1_validator_never_fires :
    (∀ l : List FinalPair, validResult l = Except.ok ()) ∧
    makePairs [] ["N"] ["L"] [] (fun _ => 0) 0 "t" = Except.ok sampleOk ∧
    sampleOk.pairs.map (fun p => (p.giver, p.receiver)) = [("L", "N"), ("N", "L")] :=
  ⟨validResult_ok, by rfl, by rfl⟩

/-- C2 (code bug): with zero newcomers and at least two participants,
`makePairs` does not skip Group A and pair Group B — it crashes:
`makeNewbieParticipants` returns a bare array that lacks the
`newbieAndLeaders` and `remainLeaders` fields, and `makePairs` then
dereferences `remainLeaders.map` on `undefined` (modelled as the
`typeError` outcome). -/
theorem C2_zero_newcomers_type_error (normals leaders : List String)
    (fp : List (String × String)) (g : Nat → Nat) (c : Nat) (now : String)
    (h : 2 ≤ normals.length + leaders.length) :
    makePairs normals [] leaders fp g c now = Except.error PairError.typeError := by
  have hnone : (makeNewbieParticipants [] leaders g c).1 = none := by
    simp [makeNewbieParticipants]
  unfold makePairs
  rw [if_neg (by simp only [List.length_nil]; omega),
    if_neg (by simp only [List.length_nil]; omega)]
  dsimp only
  rw [hnone]

/-- Closed instance of C2. -/
theorem C2_witness :
    makePairs ["A", "B", "C"] [] [] [] (fun _ => 0) 0 "t" =
      Except.error PairError.typeError :=
  C2_zero_newcomers_type_error ["A", "B", "C"] [] [] (fun _ => 0) 0 "t" (by decide)

/-- C3: `SheetDataService.makeRandomPairs` never forwards
`data.filterPairs`; the run equals `makePairs` with the default empty
forbidden list, and whenever the returned metadata carries a forbidden
pair count at all, that count is 0, regardless of the `filterPairs`
content of the input. -/
theorem C3_makeRandomPairs_ignores_filterPairs (data : SheetData) (g : Nat → Nat)
    (c : Nat) (now : String) :
    makeRandomPairs data g c now =
      makePairs data.normals data.newbies data.leaders [] g c now ∧
    ∀ res, makeRandomPairs data g c now = Except.ok res →
      res.metadata.forbiddenCount = some 0 ∨
        res.metadata = Metadata.errorMeta "참가자가 없습니다." := by
  refine ⟨rfl, fun res hok => ?_⟩
  have hok2 : makePairs data.normals data.newbies data.leaders [] g c now =
      Except.ok res := hok
  rcases makePairs_ok_metadata hok2 with hm | hm
  · right; exact hm
  · left; rw [hm]; rfl

/-- Closed instance of C3: the input carries one filter pair, yet the
run coincides with the filter-free run and reports zero forbidden
pairs. -/
theorem C3_witness :
    makeRandomPairs ⟨[], ["N"], ["L"], [("X", "Y")]⟩ (fun _ => 0) 0 "t" =
      makePairs [] ["N"] ["L"] [] (fun _ => 0) 0 "t" ∧
    (sampleOk.metadata.forbiddenCount = some 0 ∨
      sampleOk.metadata = Metadata.errorMeta "참가자가 없습니다.") := by
  have h := C3_makeRandomPairs_ignores_filterPairs
    ⟨[], ["N"], ["L"], [("X", "Y")]⟩ (fun _ => 0) 0 "t"
  exact ⟨h.1, h.2 sampleOk (by rfl)⟩

/-- C5: the eligibility predicate accepts exactly when the names differ,
the directed key is not in the forbidden set, no newcomer–ordinary
boundary is crossed in either direction, and the two are not both
newcomers; the forbidden set built by `makePairs` holds both directions
of every supplied pair with non-empty names; and lead–lead pairs are
accepted. -/
theorem C5_isValidPair_spec (giver receiver : Participant) (fp : List String) :
    (isValidPair giver receiver fp = true ↔
      (giver.name ≠ receiver.name ∧
       fp.contains (pairKey giver.name receiver.name) = false ∧
       ¬((giver.type = PType.newbie ∧ receiver.type = PType.normal) ∨
         (receiver.type = PType.newbie ∧ giver.type = PType.normal)) ∧
       ¬(giver.type = PType.newbie ∧ receiver.type = PType.newbie))) ∧
    (∀ (fps : List (String × String)) (a b : String),
      (a, b) ∈ fps → a ≠ "" → b ≠ "" →
      pairKey a b ∈ buildForbidden fps ∧ pairKey b a ∈ buildForbidden fps) ∧
    (giver.type = PType.leader → receiver.type = PType.leader →
      giver.name ≠ receiver.name →
      fp.contains (pairKey giver.name receiver.name) = false →
      isValidPair giver receiver fp = true) := by
  refine ⟨?_, fun fps a b hab ha hb => buildForbidden_mem hab ha hb, ?_⟩
  · unfold isValidPair
    split_ifs with h1 h2 h3 h4 h5 <;> simp_all
  · intro hg hr hname hcont
    simp only [isValidPair, hg, hr]
    rw [if_neg hname]
    simp only [hcont]
    simp [not_mem_of_contains_false hcont]

/-- Closed instance of C5: a lead–lead pair with distinct names is
accepted, and a supplied forbidden pair is stored in both directions. -/
theorem C5_witness :
    isValidPair ⟨"a", PType.leader⟩ ⟨"b", PType.leader⟩ [] = true ∧
    pairKey "x" "y" ∈ buildForbidden [("x", "y")] ∧
    pairKey "y" "x" ∈ buildForbidden [("x", "y")] := by
  have h := C5_isValidPair_spec ⟨"a", PType.leader⟩ ⟨"b", PType.leader⟩ []
  have hfps := h.2.1 [("x", "y")] "x" "y" (List.mem_singleton.mpr rfl)
    (by decide) (by decide)
  exact ⟨h.2.2 rfl rfl (by decide) rfl, hfps.1, hfps.2⟩

/-- C7: a population of zero participants yields the non-exceptional
empty result whose metadata is the error-only object, and a population
of exactly one participant is a thrown error. -/
theorem C7_empty_and_singleton (normals newbies leaders : List String)
    (fp : List (String × String)) (g : Nat → Nat) (c : Nat) (now : String) :
    (normals.length + newbies.length + leaders.length = 0 →
      makePairs normals newbies leaders fp g c now =
        Except.ok ⟨[], Metadata.errorMeta "참가자가 없습니다."⟩) ∧
    (normals.length + newbies.length + leaders.length = 1 →
      makePairs normals newbies leaders fp g c now =
        Except.error PairError.onlyOneParticipant) := by
  constructor
  · intro h0
    unfold makePairs
    rw [if_pos h0]
  · intro h1
    unfold makePairs
    rw [if_neg (by omega), if_pos h1]

/-- Closed instance of C7 at populations of size zero and one. -/
theorem C7_witness :
    makePairs [] [] [] [] (fun _ => 0) 0 "t" =
      Except.ok ⟨[], Metadata.errorMeta "참가자가 없습니다."⟩ ∧
    makePairs ["A"] [] [] [] (fun _ => 0) 0 "t" =
      Except.error PairError.onlyOneParticipant :=
  ⟨(C7_empty_and_singleton [] [] [] [] (fun _ => 0) 0 "t").1 rfl,
   (C7_empty_and_singleton ["A"] [] [] [] (fun _ => 0) 0 "t").2 rfl⟩

/-- C4: a supplied forbidden pair with non-empty names blocks both
directed edges in every successfully returned result. -/
theorem C4_forbidden_pairs_blocked {normals newbies leaders : List String}
    {fp : List (String × String)} {g : Nat → Nat} {c : Nat} {now : String}
    {res : PairingResult} {a b : String}
    (hab : (a, b) ∈ fp) (ha : a ≠ "") (hb : b ≠ "")
    (hok : makePairs normals newbies leaders fp g c now = Except.ok res) :
    ∀ p ∈ res.pairs,
      ¬(p.giver = a ∧ p.receiver = b) ∧ ¬(p.giver = b ∧ p.receiver = a) := by
  intro p hp
  by_cases hne : normals.length + newbies.length + leaders.length = 0
  · unfold makePairs at hok
    rw [if_pos hne] at hok
    simp only [Except.ok.injEq] at hok
    rw [← hok] at hp
    simp at hp
  · rcases makePairs_ok_elim hok hne with ⟨data, psA, cA, psB, cB, _, hA, hB, hpairs, _⟩
    rw [hpairs] at hp
    rcases renumberFrom_mem hp with ⟨p0, hp0, i, rfl⟩
    have hvalid : ∃ gv rv : Participant,
        isValidPair gv rv (buildForbidden fp) = true ∧
        p0.giver = gv.name ∧ p0.giverType = gv.type ∧
        p0.receiver = rv.name ∧ p0.receiverType = rv.type := by
      rcases List.mem_append.mp hp0 with hmem | hmem
      · exact shuffleAndPair_mem hA hmem
      · exact shuffleAndPair_mem hB hmem
    rcases hvalid with ⟨gv, rv, hv, hgname, _, hrname, _⟩
    have hnc := isValidPair_not_contains hv
    have hnm := not_mem_of_contains_false hnc
    have hkeys := buildForbidden_mem hab ha hb
    constructor
    · rintro ⟨hga, hrb⟩
      apply hnm
      have h1 : gv.name = a := by rw [← hgname]; exact hga
      have h2 : rv.name = b := by rw [← hrname]; exact hrb
      rw [h1, h2]
      exact hkeys.1
    · rintro ⟨hgb, hra⟩
      apply hnm
      have h1 : gv.name = b := by rw [← hgname]; exact hgb
      have h2 : rv.name = a := by rw [← hrname]; exact hra
      rw [h1, h2]
      exact hkeys.2

/-- Closed instance of C4: the run with forbidden pair (A, B) succeeds
and its first assignment realizes neither direction of that pair. -/
theorem C4_witness :
    ¬((⟨"L", PType.leader, "N", PType.newbie, "t", 1⟩ : FinalPair).giver = "A" ∧
      (⟨"L", PType.leader, "N", PType.newbie, "t", 1⟩ : FinalPair).receiver = "B") ∧
    ¬((⟨"L", PType.leader, "N", PType.newbie, "t", 1⟩ : FinalPair).giver = "B" ∧
      (⟨"L", PType.leader, "N", PType.newbie, "t", 1⟩ : FinalPair).receiver = "A") :=
  @C4_forbidden_pairs_blocked [] ["N"] ["L"] [("A", "B")] (fun _ => 0) 0 "t"
    sampleOk1 "A" "B" (List.mem_singleton.mpr rfl) (by decide) (by decide) (by rfl)
    ⟨"L", PType.leader, "N", PType.newbie, "t", 1⟩ (by decide)

/-- C6: on every successful run, the multiset of givers and the
multiset of receivers of the combined assignment list each coincide with
the full input population; under distinct names every participant
therefore appears exactly once in each role. -/
theorem C6_each_participant_once (normals newbies leaders : List String)
    (fp : List (String × String)) (g : Nat → Nat) (c : Nat) (now : String)
    (res : PairingResult)
    (hok : makePairs normals newbies leaders fp g c now = Except.ok res) :
    List.Perm (res.pairs.map (fun p => p.giver)) (normals ++ newbies ++ leaders) ∧
    List.Perm (res.pairs.map (fun p => p.receiver)) (normals ++ newbies ++ leaders) ∧
    ((normals ++ newbies ++ leaders).Nodup →
      ∀ x ∈ normals ++ newbies ++ leaders,
        (res.pairs.map (fun p => p.giver)).count x = 1 ∧
        (res.pairs.map (fun p => p.receiver)).count x = 1) := by
  have hmain : List.Perm (res.pairs.map (fun p => p.giver))
        (normals ++ newbies ++ leaders) ∧
      List.Perm (res.pairs.map (fun p => p.receiver))
        (normals ++ newbies ++ leaders) := by
    by_cases hne : normals.length + newbies.length + leaders.length = 0
    · have h0 : normals = [] ∧ newbies = [] ∧ leaders = [] := by
        refine ⟨?_, ?_, ?_⟩ <;> apply List.length_eq_zero.mp <;> omega
      obtain ⟨rfl, rfl, rfl⟩ := h0
      unfold makePairs at hok
      rw [if_pos hne] at hok
      simp only [Except.ok.injEq] at hok
      rw [← hok]
      simp
    · rcases makePairs_ok_elim hok hne with
        ⟨data, psA, cA, psB, cB, hnpd, hA, hB, hpairs, _⟩
      rcases makeNewbieParticipants_some_elim hnpd with ⟨_, hpartition⟩
      have hA' := shuffleAndPair_names hA
      have hB' := shuffleAndPair_names hB
      have hBnames : ((normals.map (fun n => (⟨n, PType.normal⟩ : Participant)) ++
          data.remainLeaders.map (fun n => (⟨n, PType.leader⟩ : Participant))).map
            Participant.name) = normals ++ data.remainLeaders := by
        rw [List.map_append, map_mk_name, map_mk_name]
      constructor
      · rw [hpairs, renumberFrom_giver, List.perm_iff_count]
        intro x
        have e1 := hA'.1.count_eq x
        have e2 := hB'.1.count_eq x
        rw [hBnames] at e2
        have e3 := hpartition.count_eq x
        simp only [List.count_append] at e1 e2 e3 ⊢
        simp only [List.map_append, List.count_append]
        omega
      · rw [hpairs, renumberFrom_receiver, List.perm_iff_count]
        intro x
        have e1 := hA'.2.count_eq x
        have e2 := hB'.2.count_eq x
        rw [hBnames] at e2
        have e3 := hpartition.count_eq x
        simp only [List.count_append] at e1 e2 e3 ⊢
        simp only [List.map_append, List.count_append]
        omega
  refine ⟨hmain.1, hmain.2, fun hnd x hx => ?_⟩
  constructor
  · rw [hmain.1.count_eq x]
    exact List.count_eq_one_of_mem hnd hx
  · rw [hmain.2.count_eq x]
    exact List.count_eq_one_of_mem hnd hx

/-- Closed instance of C6 on the two-person population. -/
theorem C6_witness :
    List.Perm (sampleOk.pairs.map (fun p => p.giver)) ([] ++ ["N"] ++ ["L"]) ∧
    List.Perm (sampleOk.pairs.map (fun p => p.receiver)) ([] ++ ["N"] ++ ["L"]) ∧
    ((([] : List String) ++ ["N"] ++ ["L"]).Nodup →
      ∀ x ∈ ([] : List String) ++ ["N"] ++ ["L"],
        (sampleOk.pairs.map (fun p => p.giver)).count x = 1 ∧
        (sampleOk.pairs.map (fun p => p.receiver)).count x = 1) :=
  C6_each_participant_once [] ["N"] ["L"] [] (fun _ => 0) 0 "t" sampleOk (by rfl)

/-- C8: with at least one newcomer the partitioner returns normally;
when the leads do not outnumber the newcomers, Group A is all newcomers
followed by all leads and no lead remains for Group B; when they do,
exactly `count(newcomers)` leads (a subset drawn without replacement by
shuffling the lead list) join Group A and the rest remain for Group B;
in both cases the two groups partition the population (name multisets
agree).  The selection is equidistributed: over the six equiprobable
draw-residue combinations of the three-lead one-newcomer instance, each
lead is selected exactly twice. -/
theorem C8_partitioner (newbies leaders : List String) (g : Nat → Nat) (c : Nat)
    (h : newbies ≠ []) :
    (∃ data c1, makeNewbieParticipants newbies leaders g c = (some data, c1) ∧
      (leaders.length ≤ newbies.length →
        data.newbieAndLeaders =
          newbies.map (fun n => ⟨n, PType.newbie⟩) ++
            leaders.map (fun n => ⟨n, PType.leader⟩) ∧
        data.remainLeaders = []) ∧
      (newbies.length < leaders.length →
        ∃ selected : List String,
          data.newbieAndLeaders =
            newbies.map (fun n => ⟨n, PType.newbie⟩) ++
              selected.map (fun n => ⟨n, PType.leader⟩) ∧
          selected.length = newbies.length ∧
          List.Perm (selected ++ data.remainLeaders) leaders) ∧
      List.Perm (data.newbieAndLeaders.map Participant.name ++ data.remainLeaders)
        (newbies ++ leaders)) ∧
    (selectionTable.count "A" = 2 ∧ selectionTable.count "B" = 2 ∧
      selectionTable.count "C" = 2) := by
  have h0 : ¬newbies.length = 0 := fun h0 => h (List.length_eq_zero.mp h0)
  constructor
  · by_cases hle : leaders.length ≤ newbies.length
    · refine ⟨⟨newbies.map (fun n => ⟨n, PType.newbie⟩) ++
          leaders.map (fun n => ⟨n, PType.leader⟩), []⟩, c, ?_, ?_, ?_, ?_⟩
      · unfold makeNewbieParticipants
        rw [if_neg h0, if_pos hle]
      · intro _; exact ⟨rfl, rfl⟩
      · intro hgt; omega
      · simp only [List.map_append, map_mk_name, List.append_nil]
        exact List.Perm.refl _
    · have hgt : newbies.length < leaders.length := by omega
      refine ⟨⟨newbies.map (fun n => ⟨n, PType.newbie⟩) ++
          ((fisherYates g leaders c).1.take newbies.length).map
            (fun n => ⟨n, PType.leader⟩),
          (fisherYates g leaders c).1.drop newbies.length⟩,
        (fisherYates g leaders c).2, ?_, ?_, ?_, ?_⟩
      · unfold makeNewbieParticipants
        rw [if_neg h0, if_neg hle]
      · intro hle2; omega
      · intro _
        refine ⟨(fisherYates g leaders c).1.take newbies.length, rfl, ?_, ?_⟩
        · rw [List.length_take, fisherYates_length]
          omega
        · rw [List.take_append_drop]
          exact fisherYates_perm g leaders c
      · simp only [List.map_append, map_mk_name]
        rw [List.append_assoc, List.take_append_drop]
        exact (List.Perm.refl newbies).append (fisherYates_perm g leaders c)
  · exact ⟨by decide, by decide, by decide⟩

/-- Closed instance of C8 with one newcomer and two leads. -/
theorem C8_witness :
    ∃ data c1, makeNewbieParticipants ["N"] ["L1", "L2"] (fun _ => 0) 0 =
      (some data, c1) := by
  rcases (C8_partitioner ["N"] ["L1", "L2"] (fun _ => 0) 0 (by decide)).1 with
    ⟨data, c1, heq, _⟩
  exact ⟨data, c1, heq⟩

/-- C9: for a group of at least two, `shuffleAndPair` is the
100-attempt rejection-sampling loop; each attempt shuffles the group
into the single cycle of adjacent pairs and is abandoned as soon as an
adjacent pair fails the eligibility predicate; a success is the cycle of
the first valid attempt; exhaustion of all 100 attempts is exactly the
thrown error carrying the group size. -/
theorem C9_rejection_sampling (group : List Participant) (fp : List String)
    (now : String) (g : Nat → Nat) (c : Nat) (h2 : 2 ≤ group.length) :
    shuffleAndPair group fp now g c = shuffleTries group fp now g 100 c ∧
    (∀ shuffled, cycleValid shuffled fp = false →
      attemptPairs shuffled fp now = none) ∧
    (∀ ps c2, shuffleAndPair group fp now g c = Except.ok (ps, c2) →
      ∃ k, k < 100 ∧ cycleValid (attemptShuffled g group c k) fp = true ∧
        (∀ m, m < k → cycleValid (attemptShuffled g group c m) fp = false) ∧
        List.Perm (attemptShuffled g group c k) group ∧
        ps = (List.range (attemptShuffled g group c k).length).map
          (pairAt (attemptShuffled g group c k) now) ∧
        c2 = attemptCounter g group c (k + 1)) ∧
    (∀ e, shuffleAndPair group fp now g c = Except.error e →
      e = PairError.groupUnsolvable group.length ∧
      ∀ k, k < 100 → cycleValid (attemptShuffled g group c k) fp = false) ∧
    ((∀ k, k < 100 → cycleValid (attemptShuffled g group c k) fp = false) →
      shuffleAndPair group fp now g c =
        Except.error (PairError.groupUnsolvable group.length)) := by
  have hne0 : ¬group.length = 0 := by omega
  have hne1 : ¬group.length = 1 := by omega
  have heq : shuffleAndPair group fp now g c = shuffleTries group fp now g 100 c := by
    unfold shuffleAndPair
    rw [if_neg hne0, if_neg hne1]
  refine ⟨heq, fun s hcv => attemptPairs_none hcv, ?_, ?_, ?_⟩
  · intro ps c2 hok
    rw [heq] at hok
    rcases shuffleTries_ok_elim 100 c ps c2 hok with ⟨k, hk, hcv, hfirst, hps, hc2⟩
    exact ⟨k, hk, hcv, hfirst, fisherYates_perm g group _, hps, hc2⟩
  · intro e herr
    rw [heq] at herr
    exact shuffleTries_error_elim 100 c e herr
  · intro hall
    rw [heq]
    exact shuffleTries_error_intro 100 c hall

/-- Closed instance of C9 on a two-person group. -/
theorem C9_witness :
    shuffleAndPair [⟨"X", PType.normal⟩, ⟨"Y", PType.normal⟩] [] "t" (fun _ => 0) 0 =
      shuffleTries [⟨"X", PType.normal⟩, ⟨"Y", PType.normal⟩] [] "t" (fun _ => 0) 100 0 :=
  (C9_rejection_sampling [⟨"X", PType.normal⟩, ⟨"Y", PType.normal⟩] [] "t"
    (fun _ => 0) 0 (by decide)).1

/-- C10: with the same stream of random draws and the same inputs, two
runs of `makePairs` agree on the entire assignment sequence — ids,
givers, giver categories, receivers and receiver categories in order —
and on the error outcome, even across different clock readings. -/
theorem C10_determinism (normals newbies leaders : List String)
    (fp : List (String × String)) (g1 g2 : Nat → Nat) (c : Nat)
    (now1 now2 : String) (hg : ∀ n, g1 n = g2 n) :
    Except.map (fun r => r.pairs.map FinalPair.core)
        (makePairs normals newbies leaders fp g1 c now1) =
      Except.map (fun r => r.pairs.map FinalPair.core)
        (makePairs normals newbies leaders fp g2 c now2) := by
  have hgg : g1 = g2 := funext hg
  subst hgg
  by_cases h0 : normals.length + newbies.length + leaders.length = 0
  · unfold makePairs
    rw [if_pos h0, if_pos h0]
  · by_cases h1 : normals.length + newbies.length + leaders.length = 1
    · unfold makePairs
      rw [if_neg h0, if_neg h0, if_pos h1, if_pos h1]
    · unfold makePairs
      rw [if_neg h0, if_neg h0, if_neg h1, if_neg h1]
      dsimp only
      split
      · rfl
      · rename_i data hnpd
        have hedgeA : Except.map (fun pc => (pc.1.map Pair.edge, pc.2))
            (runGroup data.newbieAndLeaders (buildForbidden fp) now1 g1
              (makeNewbieParticipants newbies leaders g1 c).2) =
          Except.map (fun pc => (pc.1.map Pair.edge, pc.2))
            (runGroup data.newbieAndLeaders (buildForbidden fp) now2 g1
              (makeNewbieParticipants newbies leaders g1 c).2) := by
          rw [runGroup_eq, runGroup_eq]
          exact shuffleAndPair_edge _ _ now1 now2 g1 _
        cases hra1 : runGroup data.newbieAndLeaders (buildForbidden fp) now1 g1
            (makeNewbieParticipants newbies leaders g1 c).2 with
        | error e =>
          have hra2 := exceptMap_error_elim hedgeA hra1
          rw [makePairsTail_errA hra1, makePairsTail_errA hra2]
        | ok pa1 =>
          rcases exceptMap_ok_elim hedgeA hra1 with ⟨pa2, hra2, hpa⟩
          simp only [Prod.mk.injEq] at hpa
          have hedgeB : Except.map (fun pc => (pc.1.map Pair.edge, pc.2))
              (runGroup (normals.map (fun n => ⟨n, PType.normal⟩) ++
                  data.remainLeaders.map (fun n => ⟨n, PType.leader⟩))
                (buildForbidden fp) now1 g1 pa1.2) =
            Except.map (fun pc => (pc.1.map Pair.edge, pc.2))
              (runGroup (normals.map (fun n => ⟨n, PType.normal⟩) ++
                  data.remainLeaders.map (fun n => ⟨n, PType.leader⟩))
                (buildForbidden fp) now2 g1 pa1.2) := by
            rw [runGroup_eq, runGroup_eq]
            exact shuffleAndPair_edge _ _ now1 now2 g1 _
          cases hrb1 : runGroup (normals.map (fun n => ⟨n, PType.normal⟩) ++
              data.remainLeaders.map (fun n => ⟨n, PType.leader⟩))
              (buildForbidden fp) now1 g1 pa1.2 with
          | error e =>
            have hrb2 := exceptMap_error_elim hedgeB hrb1
            rw [hpa.2] at hrb2
            rw [makePairsTail_errB hra1 hrb1, makePairsTail_errB hra2 hrb2]
          | ok pb1 =>
            rcases exceptMap_ok_elim hedgeB hrb1 with ⟨pb2, hrb2, hpb⟩
            simp only [Prod.mk.injEq] at hpb
            rw [hpa.2] at hrb2
            rw [makePairsTail_okB hra1 hrb1, makePairsTail_okB hra2 hrb2]
            simp only [Except.map, Except.ok.injEq]
            apply renumberFrom_core
            rw [List.map_append, List.map_append, hpa.1, hpb.1]

/-- Closed instance of C10: two runs with pointwise equal draw streams
and different clock values agree on the id-and-edge sequence. -/
theorem C10_witness :
    Except.map (fun r => r.pairs.map FinalPair.core)
        (makePairs [] ["N"] ["L"] [] (fun _ => 0) 0 "t") =
      Except.map (fun r => r.pairs.map FinalPair.core)
        (makePairs [] ["N"] ["L"] [] (fun _ => 0) 0 "u") :=
  C10_determinism [] ["N"] ["L"] [] (fun _ => 0) (fun _ => 0) 0 "t" "u"
    (fun _ => rfl)

end Manito
